import Mathlib

/-!
Verification development for the `bflendingbot` repository (files
`cascadebot.py`, `BFClient.py`, `lending.py`).

The repository is a Bitfinex peer-to-peer lending bot.  Its core algorithms
are embedded shallowly below:

* `Offer.get_new_rate` (cascadebot.py, lines 139-177): the rate-decay
  schedule.  Python `Decimal` values are modelled as rationals `ℚ` (the
  arithmetic used — subtraction, multiplication, `max` — is exact on the
  decimals involved).  The wall-clock quantities `datetime.utcnow() -
  submitted_at` and the configured reduction interval enter the function
  only through the floor division `time_elapsed // decrement_interval`
  (Python `timedelta // timedelta`, a floored integer division), embedded
  as `Int.fdiv` on the two durations.
* `adjust_offers` (cascadebot.py 333-364, identical copies in BFClient.py
  275-307 and lending.py 96-127): the rebalancing pass.  Network effects
  (`api.cancel_offer`, `offer.get_new_rate()`) are abstracted as oracle
  functions; the `defaultdict(Decimal)` bucket map is embedded as an
  insertion-ordered association list, matching Python dict semantics.
* `BitfinexAPI._rate_limiter` (cascadebot.py 318-330): the sliding-window
  limiter.  The mutable `deque` of timestamps is passed explicitly; a run
  of the bot is a list of acquire events, each carrying the clock reading
  at its final (successful) window check and the reading recorded by the
  trailing `timestamps.append(datetime.utcnow())`.
* `BitfinexAPI._request` (cascadebot.py 280-316): retry/backoff, embedded
  as a trace of the externally visible actions (rate-limiter acquisition,
  sleeps) driven by a scripted list of attempt outcomes.
* the nonce counter `count(int(time.time()))` (cascadebot.py 198).
* `BitfinexAPI.get_offers` / `get_available_balances` (both files): raw
  JSON entries are embedded as structures whose numeric fields keep the
  raw decimal strings, parsed by `parseDecimal` exactly where the Python
  code applies `Decimal(...)`.
* `Offer.get_new_rate` in BFClient.py (lines 41-79) differs from the
  cascadebot.py version: its per-currency parameters are the integer
  literals 0/1, so `time_elapsed // decrement_interval` is a Python
  `timedelta // int` division producing a `timedelta`.  The subsequent
  dynamically ill-typed operations are embedded through a small `PyVal`
  dynamic value type whose operators return `Except`.
-/

/-- Numeric value of a list of ASCII digit characters, most significant
first (`'0'` has code 48). -/
def digitsToNat (l : List Char) : ℕ :=
  l.foldl (fun acc c => acc * 10 + (c.toNat - 48)) 0

/-- Value of an unsigned decimal literal given as characters: the digits
before the first `'.'` are the integer part, those after it the fractional
part. -/
def parseUnsignedDecimal (l : List Char) : ℚ :=
  let intPart := l.takeWhile (fun c => c != '.')
  let fracPart := (l.dropWhile (fun c => c != '.')).drop 1
  (digitsToNat intPart : ℚ) + (digitsToNat fracPart : ℚ) / (10 : ℚ) ^ fracPart.length

/-- Exact value of a decimal string, as produced by Python
`Decimal(s)` on the well-formed decimal strings the exchange returns
(optional leading minus, digits, optional fractional part). -/
def parseDecimal (s : String) : ℚ :=
  match s.toList with
  | '-' :: rest => - parseUnsignedDecimal rest
  | l => parseUnsignedDecimal l

/-- Raw offer dictionary as returned by the exchange (`/v1/offers` rows):
`rate` and `remaining_amount` are decimal strings, `timestamp` is kept as
whole seconds (the code truncates it with `int(Decimal(...))`). -/
structure OfferDict where
  id : ℤ
  currency : String
  rate : String
  timestamp : ℤ
  remaining_amount : String
deriving DecidableEq

namespace OfferDict

/-- The `direction` field of the raw dictionary.  It is stored separately
from the fields that survive into `Offer` because `Offer.__init__` does
not read it. -/
structure Entry where
  dict : OfferDict
  direction : String
deriving DecidableEq

end OfferDict

/-- The `Offer` object built by `Offer.__init__` (cascadebot.py 118-131):
`rate` and `amount` are `Decimal(...)` conversions of the raw strings,
`submitted_at` is the timestamp in whole seconds. -/
structure Offer where
  id : ℤ
  currency : String
  rate : ℚ
  submitted_at : ℤ
  amount : ℚ
deriving DecidableEq

/-- `Offer.__init__` applied to a raw offer dictionary. -/
def Offer.ofDict (d : OfferDict) : Offer :=
  { id := d.id
    currency := d.currency
    rate := parseDecimal d.rate
    submitted_at := d.timestamp
    amount := parseDecimal d.remaining_amount }

/-- One iteration of the decay loop in `Offer.get_new_rate`
(cascadebot.py 170-176): first the linear decrement
`new_rate -= rate_decrement`, then the exponential pull
`new_rate = (new_rate - min_rate) * decay_multiplier + min_rate`. -/
def decayStep (minRate rateDecrement decayMultiplier : ℚ) (r : ℚ) : ℚ :=
  ((r - rateDecrement) - minRate) * decayMultiplier + minRate

/-- `Offer.get_new_rate` (cascadebot.py 139-177), parametrised by the
per-currency configuration the function reads from module globals.
`timeElapsed` is `datetime.utcnow() - self.submitted_at` and
`decrementInterval` the configured reduction interval, both in the same
time unit; `timeElapsed // decrement_interval` on Python timedeltas is a
floored integer division, i.e. `Int.fdiv`. -/
def get_new_rate (minRate rateDecrement decayMultiplier rate : ℚ)
    (timeElapsed decrementInterval : ℤ) : Option ℚ :=
  if rate ≤ minRate then none
  else
    let intervalsElapsed : ℤ := Int.fdiv timeElapsed decrementInterval
    if intervalsElapsed < 1 then none
    else some (max ((decayStep minRate rateDecrement decayMultiplier)^[intervalsElapsed.toNat] rate) minRate)

/-- The rate value reached after `n` iterations of the exponential-only
decay loop (`rate_decrement = 0`), i.e. the per-interval rate sequence of
`get_new_rate` before the final clamp. -/
def expSeq (minRate decayMultiplier rate : ℚ) (n : ℕ) : ℚ :=
  (decayStep minRate 0 decayMultiplier)^[n] rate

/-- `BitfinexAPI.get_offers` (cascadebot.py 201-224): keep the raw rows
with `direction == "lend"` and raw `rate` string different from `"0.0"`,
build `Offer` objects, and route them by `offer.currency` into the USD
list or the BTC list, preserving response order. -/
def get_offers : List OfferDict.Entry → List Offer × List Offer
  | [] => ([], [])
  | e :: rest =>
    let (usd, btc) := get_offers rest
    if e.direction == "lend" && e.dict.rate != "0.0" then
      let offer := Offer.ofDict e.dict
      if offer.currency == "USD" then (offer :: usd, btc)
      else if offer.currency == "BTC" then (usd, offer :: btc)
      else (usd, btc)
    else (usd, btc)

/-- What the specification's words for `listOffers()` describe: exactly
the entries with `direction == "lend"` and numeric rate different from 0,
partitioned by currency in response order. -/
def spec_list_offers : List OfferDict.Entry → List Offer × List Offer :=
  fun es =>
    ((es.filter fun e =>
        e.direction == "lend" && !(parseDecimal e.dict.rate == 0) && e.dict.currency == "USD").map
        (fun e => Offer.ofDict e.dict),
     (es.filter fun e =>
        e.direction == "lend" && !(parseDecimal e.dict.rate == 0) && e.dict.currency == "BTC").map
        (fun e => Offer.ofDict e.dict))

/-- One row of the `/v1/balances` response; `available` and `amount` are
decimal strings. -/
structure BalanceEntry where
  type : String
  currency : String
  available : String
  amount : String
deriving DecidableEq

/-- `BitfinexAPI.get_available_balances` (cascadebot.py 261-278): scan
the rows in order, remembering `Decimal(available)` of the deposit-wallet
rows for `"usd"` and `"btc"`; both accumulators start at `0`. -/
def get_available_balances (rows : List BalanceEntry) : ℚ × ℚ :=
  rows.foldl
    (fun acc e =>
      if e.type == "deposit" then
        if e.currency == "usd" then (parseDecimal e.available, acc.2)
        else if e.currency == "btc" then (acc.1, parseDecimal e.available)
        else acc
      else acc)
    (0, 0)

/-- `BitfinexAPI.get_available_balances` in BFClient.py (lines 165-182):
only `"usd"` deposit rows are inspected, and the pair returned is that
row's `(available, amount)` — there is no BTC component. -/
def BFClient_get_available_balances (rows : List BalanceEntry) : ℚ × ℚ :=
  rows.foldl
    (fun acc e =>
      if e.type == "deposit" && e.currency == "usd" then
        (parseDecimal e.available, parseDecimal e.amount)
      else acc)
    (0, 0)

/-- The last row of `rows` satisfying
`type == "deposit" && currency == cur`, if any — the deposit wallet
entry of the currency (the code lets a later duplicate win). -/
def findLastDeposit (cur : String) : List BalanceEntry → Option BalanceEntry
  | [] => none
  | e :: rest =>
    match findLastDeposit cur rest with
    | some x => some x
    | none => if e.type == "deposit" && e.currency == cur then some e else none

/-- The parsed `field` of the currency's deposit wallet entry, `0` when
no row matches.  This is the specification's "the available balance of
that currency's deposit wallet entry" (with `field :=
BalanceEntry.available`). -/
def lastDepositField (cur : String) (field : BalanceEntry → String)
    (rows : List BalanceEntry) : ℚ :=
  (findLastDeposit cur rows).elim 0 fun e => parseDecimal (field e)

/-- Rate bucket map of one rebalancing pass: the association list mirrors
`defaultdict(Decimal)` under `new_offer_amounts[new_rate] +=
cancelled_offer.amount` — an existing key accumulates in place, a new key
is appended at the end (Python dicts preserve insertion order). -/
def addToBucket (rate amt : ℚ) : List (ℚ × ℚ) → List (ℚ × ℚ)
  | [] => [(rate, amt)]
  | (r, a) :: rest =>
    if r = rate then (r, a + amt) :: rest
    else (r, a) :: addToBucket rate amt rest

/-- First loop of `adjust_offers` (cascadebot.py 348-352): for each offer
whose `get_new_rate()` is not `None`, cancel it and accumulate the amount
reported back by the exchange into the bucket of the new rate.
`newRateOf` abstracts `offer.get_new_rate()` (which depends on the clock
and configuration) and `cancelAmountOf` abstracts
`api.cancel_offer(offer).amount` (the authoritative remaining amount at
cancellation time). -/
def collectBuckets (newRateOf : Offer → Option ℚ) (cancelAmountOf : Offer → ℚ) :
    List Offer → List (ℚ × ℚ) → List (ℚ × ℚ)
  | [], buckets => buckets
  | o :: rest, buckets =>
    match newRateOf o with
    | none => collectBuckets newRateOf cancelAmountOf rest buckets
    | some r => collectBuckets newRateOf cancelAmountOf rest (addToBucket r (cancelAmountOf o) buckets)

/-- Oracle describing a clock/configuration state in which
`offer.get_new_rate()` returns the same decayed rate `r` for every
offer under consideration (e.g. two equal-aged offers of one currency
under linear decay from a common start rate). -/
def constNewRate (r : ℚ) : Offer → Option ℚ := fun _ => some r

/-- Externally visible outcome of `adjust_offers` for one rate bucket:
either `api.new_offer(currency, amount, rate, lend_period)` was invoked,
or the below-minimum skip message was printed. -/
inductive AdjustAction
  | newOffer (currency : String) (amount rate : ℚ) (period : ℤ)
  | skip (rate : ℚ) (currency : String) (amount : ℚ)
deriving DecidableEq

/-- `adjust_offers` (cascadebot.py 333-364) as the list of per-bucket
outcomes it produces, in bucket (insertion) order: empty input is a
no-op; otherwise every bucket with amount strictly above
`minimum_amount` yields a `new_offer` call and every other bucket yields
a skip report. -/
def adjust_offers (newRateOf : Offer → Option ℚ) (cancelAmountOf : Offer → ℚ)
    (offers : List Offer) (lendPeriod : ℤ) (minimumAmount : ℚ) : List AdjustAction :=
  match offers with
  | [] => []
  | o :: _ =>
    let currency := o.currency
    (collectBuckets newRateOf cancelAmountOf offers []).map fun p =>
      if minimumAmount < p.2 then AdjustAction.newOffer currency p.2 p.1 lendPeriod
      else AdjustAction.skip p.1 currency p.2

/-- `BitfinexAPI.rate_limit_interval` (cascadebot.py 186): 70 seconds,
expressed in microseconds — the exact resolution of the Python
`datetime` values the limiter compares, which makes every clock reading
an integer. -/
def rate_limit_interval : ℤ := 70000000

/-- `BitfinexAPI.max_requests_per_interval` (cascadebot.py 187). -/
def max_requests_per_interval : ℕ := 60

/-- The eviction loop at the top of `_rate_limiter` (cascadebot.py
321-323): pop timestamps from the front of the deque while they are
strictly older than `now - rate_limit_interval`. -/
def evictOld (now : ℤ) (ts : List ℤ) : List ℤ :=
  ts.dropWhile (fun t => decide (t < now - rate_limit_interval))

/-- One acquisition through `_rate_limiter` as it appears on the shared
clock: `checkTime` is the `datetime.utcnow()` reading of the final loop
iteration (the one that found the evicted window below the cap and broke
out), `appendTime` the reading recorded by `timestamps.append(...)` on
line 330. -/
structure AcquireEvent where
  checkTime : ℤ
  appendTime : ℤ
deriving DecidableEq

/-- Effect of one completed `_rate_limiter` call on the timestamp deque:
evict at the final check time, then append the recorded timestamp. -/
def limiterStep (dq : List ℤ) (e : AcquireEvent) : List ℤ :=
  evictOld e.checkTime dq ++ [e.appendTime]

/-- The timestamp deque after the first `n` acquisitions of a run. -/
def dequeAfter (es : List AcquireEvent) : ℕ → List ℤ
  | 0 => []
  | n + 1 =>
    if h : n < es.length then limiterStep (dequeAfter es n) (es.get ⟨n, h⟩)
    else dequeAfter es n

/-- Timestamps recorded by the first `n` acquisitions, in order. -/
def admittedTimes (es : List AcquireEvent) (n : ℕ) : List ℤ :=
  (es.take n).map AcquireEvent.appendTime

/-- The clock readings of a run are produced by one monotone real-time
clock: each acquisition checks before it appends, and appends before the
next acquisition checks. -/
def Chronological (es : List AcquireEvent) : Prop :=
  (∀ i : Fin es.length, (es.get i).checkTime ≤ (es.get i).appendTime) ∧
  (∀ i j : Fin es.length, i.val < j.val → (es.get i).appendTime ≤ (es.get j).checkTime)

/-- Every acquisition of the run passed the window check: at its final
check time, the evicted deque held fewer than
`max_requests_per_interval` timestamps (otherwise `_rate_limiter` keeps
sleeping and re-checking instead of appending). -/
def GuardHolds (es : List AcquireEvent) : Prop :=
  ∀ j : Fin es.length,
    (evictOld (es.get j).checkTime (dequeAfter es j.val)).length < max_requests_per_interval

instance instDecidableChronological (es : List AcquireEvent) : Decidable (Chronological es) := by
  unfold Chronological
  infer_instance

instance instDecidableGuardHolds (es : List AcquireEvent) : Decidable (GuardHolds es) := by
  unfold GuardHolds
  infer_instance

/-- Outcome of one HTTP attempt inside the `_request` retry loop. -/
inductive AttemptResult
  | connectionError
  | response (status : ℕ)
deriving DecidableEq

/-- Truthiness of a `requests.Response` with the given status code:
`Response.__bool__` returns `self.ok`, which is true exactly for status
codes below 400 — so a 500 response is falsy. -/
def responseTruthy (status : ℕ) : Bool :=
  decide (status < 400)

/-- An attempt leaves `request` at `None` (and so is retried) exactly
when it raised `ConnectionError` (line 298, `request` never assigned)
or when the guard `if request and request.status_code == 500` on line
300 resets it.  That guard requires the response to be truthy *and*
have status 500, which `responseTruthy` makes contradictory: a 500
response short-circuits the conjunction and is never reset, so only
connection failures are ever retried. -/
def requestRetried : AttemptResult → Bool
  | AttemptResult.connectionError => true
  | AttemptResult.response s => responseTruthy s && s == 500

/-- Externally visible actions of `_request`: the single
`self._rate_limiter()` call and the backoff sleeps. -/
inductive ClientAction
  | rateLimiterAcquire
  | sleepSeconds (n : ℕ)
deriving DecidableEq

/-- Whether an action is the rate-limiter acquisition. -/
def isAcquire : ClientAction → Bool
  | ClientAction.rateLimiterAcquire => true
  | _ => false

/-- Seconds slept by an action. -/
def sleepAmount : ClientAction → ℕ
  | ClientAction.sleepSeconds n => n
  | _ => 0

/-- The retry loop of `_request` (cascadebot.py 294-312) driven by a
script of attempt outcomes, starting at `retry_count = k`: an attempt
that leaves `request` at `None` sleeps `2 ** retry_count` seconds and
increments the counter; any attempt that produced a response (of
whatever status, since the 500 guard never fires) ends the loop with no
sleep and no further rate-limiter call. -/
def retryLoopActions : List AttemptResult → ℕ → List ClientAction
  | [], _ => []
  | a :: rest, k =>
    if requestRetried a then ClientAction.sleepSeconds (2 ^ k) :: retryLoopActions rest (k + 1)
    else []

/-- `_request` (cascadebot.py 280-316) as its action trace: exactly one
`_rate_limiter()` acquisition before the loop (line 281), then the
retry-loop sleeps. -/
def requestActions (attempts : List AttemptResult) : List ClientAction :=
  ClientAction.rateLimiterAcquire :: retryLoopActions attempts 0

/-- Total seconds slept in an action trace. -/
def totalSleep (l : List ClientAction) : ℕ :=
  (l.map sleepAmount).sum

/-- What `_request` does after its retry loop ends (cascadebot.py
313-316): return the parsed JSON body on status 200, or print and
`raise_for_status()` on any other status. -/
inductive RequestResult
  | json
  | httpError (status : ℕ)
  | noResponse
deriving DecidableEq

/-- The result of `_request` on a script of attempt outcomes: the loop
runs while `request is None`; the first attempt not retried carries the
response the code then inspects.  (`noResponse` covers a script that
ends with the loop still waiting; the `connectionError` arm below is
unreachable because a connection failure is always retried.) -/
def requestResult : List AttemptResult → RequestResult
  | [] => RequestResult.noResponse
  | a :: rest =>
    if requestRetried a then requestResult rest
    else
      match a with
      | AttemptResult.connectionError => RequestResult.noResponse
      | AttemptResult.response s =>
        if s == 200 then RequestResult.json else RequestResult.httpError s

/-- The nonce attached to the `k`-th request (0-based) of a
`BitfinexAPI` instance: `self.nonce = count(int(time.time()))` seeds the
counter with the process-start wall-clock seconds and every `_request`
draws `next(self.nonce)` (cascadebot.py 198, 286). -/
def nonceAt (startClock : ℕ) : ℕ → ℕ
  | 0 => startClock
  | k + 1 => nonceAt startClock k + 1

/-- A concrete 61-acquisition run for evaluating the rate-limiter
model: the clock advances two seconds (2000000 microseconds) per acquisition, so any trailing
70-second window holds at most 36 admitted timestamps and every window
check passes. -/
def witnessEvents : List AcquireEvent :=
  (List.range 61).map fun k => { checkTime := (2000000 * k : ℕ), appendTime := (2000000 * k : ℕ) }

/-- Dynamic value universe for the dynamically-typed fragment of
BFClient.py's `get_new_rate`: Python `int` and `datetime.timedelta`
(microsecond resolution). -/
inductive PyVal
  | int (n : ℤ)
  | timedelta (us : ℤ)
deriving DecidableEq

/-- Python `//` on the value universe: `timedelta // int` scales the
duration and returns a `timedelta`; `timedelta // timedelta` and
`int // int` return `int`; everything else raises `TypeError`. -/
def pyFloorDiv : PyVal → PyVal → Except String PyVal
  | PyVal.timedelta a, PyVal.int n => Except.ok (PyVal.timedelta (Int.fdiv a n))
  | PyVal.timedelta a, PyVal.timedelta b => Except.ok (PyVal.int (Int.fdiv a b))
  | PyVal.int a, PyVal.int b => Except.ok (PyVal.int (Int.fdiv a b))
  | _, _ => Except.error "TypeError: unsupported operand types for floor division"

/-- Python `<` on the value universe: comparing a `timedelta` with an
`int` raises `TypeError`. -/
def pyLt : PyVal → PyVal → Except String Bool
  | PyVal.int a, PyVal.int b => Except.ok (decide (a < b))
  | PyVal.timedelta a, PyVal.timedelta b => Except.ok (decide (a < b))
  | _, _ => Except.error "TypeError: unsupported comparison between timedelta and int"

/-- Python `range(x)`: accepts only an `int` (clamping negatives to an
empty range); a `timedelta` argument raises `TypeError`. -/
def pyRangeLen : PyVal → Except String ℕ
  | PyVal.int n => Except.ok n.toNat
  | _ => Except.error "TypeError: timedelta object cannot be interpreted as an integer"

/-- Per-currency constants hardcoded in BFClient.py's `get_new_rate`
(lines 52-63): `(min_rate, rate_decrement, decay_multiplier)` as the
numbers they denote, plus `decrement_interval` kept as the Python value
it is — the `int` literal `1`. -/
def BFClient_configOf (currency : String) : Except String (ℚ × ℚ × ℚ × PyVal) :=
  if currency == "USD" then Except.ok (0, 1, 1, PyVal.int 1)
  else if currency == "BTC" then Except.ok (1, 1, 1, PyVal.int 1)
  else Except.error "Unrecognized currency string"

/-- `Offer.get_new_rate` of BFClient.py (lines 41-79): the structure of
cascadebot.py's version, but with the hardcoded config above, so
`time_elapsed // decrement_interval` divides a `timedelta` by the `int`
`1` and the following comparison and `range` call go through the dynamic
operators.  `timeElapsedUs` is the (always `timedelta`-typed) elapsed
time in microseconds. -/
def BFClient_get_new_rate (currency : String) (rate : ℚ) (timeElapsedUs : ℤ) :
    Except String (Option ℚ) :=
  (BFClient_configOf currency).bind fun cfg =>
    let minRate := cfg.1
    let rateDecrement := cfg.2.1
    let decayMultiplier := cfg.2.2.1
    let decrementInterval := cfg.2.2.2
    if rate ≤ minRate then Except.ok none
    else
      (pyFloorDiv (PyVal.timedelta timeElapsedUs) decrementInterval).bind fun intervals =>
        (pyLt intervals (PyVal.int 1)).bind fun ltOne =>
          if ltOne then Except.ok none
          else
            (pyRangeLen intervals).bind fun n =>
              Except.ok (some (max ((decayStep minRate rateDecrement decayMultiplier)^[n] rate) minRate))

/-! ## Helper lemmas -/

theorem nonceAt_eq (s k : ℕ) : nonceAt s k = s + k := by
  induction k with
  | zero => rfl
  | succ k ih => simp only [nonceAt, ih]; omega

theorem decayStep_one (minRate d r : ℚ) : decayStep minRate d 1 r = r - d := by
  unfold decayStep; ring

theorem iterate_decayStep_one (minRate d rate : ℚ) :
    ∀ k : ℕ, (decayStep minRate d 1)^[k] rate = rate - (k : ℚ) * d
  | 0 => by simp
  | k + 1 => by
    rw [Function.iterate_succ_apply', iterate_decayStep_one minRate d rate k, decayStep_one]
    push_cast
    ring

/-! ## Claim theorems -/

/-- Claim C2: for an offer with `rate` strictly above `minRate`, when the
decay multiplier is 1 and the linear decrement is `d`, and
`time_elapsed // decrement_interval` computes `n ≥ 1` elapsed intervals,
`get_new_rate` returns exactly `max (rate - n * d) minRate`. -/
theorem claim_C2_linear_decay (minRate d rate : ℚ) (te di n : ℤ)
    (hrate : minRate < rate) (hn : Int.fdiv te di = n) (h1 : 1 ≤ n) :
    get_new_rate minRate d 1 rate te di = some (max (rate - (n : ℚ) * d) minRate) := by
  have hcast : ((n.toNat : ℚ)) = (n : ℚ) := by
    exact_mod_cast congrArg (fun z : ℤ => (z : ℚ)) (Int.toNat_of_nonneg (by omega))
  simp only [get_new_rate, hn]
  rw [if_neg (not_le.mpr hrate), if_neg (by omega : ¬ n < 1), iterate_decayStep_one, hcast]

/-- Witness for claim C2 at a concrete input: rate 5, floor 0,
decrement 1, three elapsed intervals. -/
theorem claim_C2_witness :
    (0 : ℚ) < 5 ∧ Int.fdiv 3 1 = 3 ∧ (1 : ℤ) ≤ 3 ∧
    get_new_rate 0 1 1 5 3 1 = some (max (5 - ((3 : ℤ) : ℚ) * 1) 0) :=
  ⟨by norm_num, by decide, by decide,
    claim_C2_linear_decay 0 1 5 3 1 3 (by norm_num) (by decide) (by decide)⟩

/-- Claim C6: the nonces drawn by one `BitfinexAPI` instance start at the
process-start clock seconds, advance by one per request, and are strictly
increasing (hence never repeat or decrease). -/
theorem claim_C6_nonce_monotone (s : ℕ) :
    nonceAt s 0 = s ∧
    (∀ k, nonceAt s (k + 1) = nonceAt s k + 1) ∧
    (∀ i j, i < j → nonceAt s i < nonceAt s j) ∧
    (∀ i j, i ≠ j → nonceAt s i ≠ nonceAt s j) := by
  refine ⟨rfl, fun k => rfl, fun i j hij => ?_, fun i j hij => ?_⟩
  · rw [nonceAt_eq, nonceAt_eq]; omega
  · rw [nonceAt_eq, nonceAt_eq]; omega

/-- Witness for claim C6 at a concrete seed and request indices. -/
theorem claim_C6_witness :
    0 < 1 ∧ nonceAt 1700000000 0 < nonceAt 1700000000 1 :=
  ⟨by decide, (claim_C6_nonce_monotone 1700000000).2.2.1 0 1 (by decide)⟩

/-- Claim C10: in BFClient.py, `get_new_rate` for a USD or BTC offer
whose rate is strictly above the hardcoded floor (0 for USD, 1 for BTC)
never produces a new rate: `time_elapsed // 1` divides a timedelta by an
int, yielding a timedelta, so the comparison `intervals_elapsed < 1`
(and, were it reached, `range(intervals_elapsed)`) is dynamically
ill-typed and the call raises `TypeError`; the only normal return is
`None`, for a rate at or below the floor. -/
theorem claim_C10_bfclient_rate_never_changes (rate : ℚ) (us : ℤ) :
    (BFClient_get_new_rate "USD" rate us = Except.ok none ↔ rate ≤ 0) ∧
    (0 < rate → BFClient_get_new_rate "USD" rate us =
        Except.error "TypeError: unsupported comparison between timedelta and int") ∧
    (BFClient_get_new_rate "BTC" rate us = Except.ok none ↔ rate ≤ 1) ∧
    (1 < rate → BFClient_get_new_rate "BTC" rate us =
        Except.error "TypeError: unsupported comparison between timedelta and int") ∧
    (∀ r : ℚ, BFClient_get_new_rate "USD" rate us ≠ Except.ok (some r)) ∧
    (∀ r : ℚ, BFClient_get_new_rate "BTC" rate us ≠ Except.ok (some r)) := by
  have husd : BFClient_get_new_rate "USD" rate us =
      if rate ≤ 0 then Except.ok none
      else Except.error "TypeError: unsupported comparison between timedelta and int" := by
    by_cases h : rate ≤ 0 <;>
      simp [BFClient_get_new_rate, BFClient_configOf, pyFloorDiv, pyLt, Except.bind, h]
  have hbtc : BFClient_get_new_rate "BTC" rate us =
      if rate ≤ 1 then Except.ok none
      else Except.error "TypeError: unsupported comparison between timedelta and int" := by
    by_cases h : rate ≤ 1 <;>
      simp [BFClient_get_new_rate, BFClient_configOf, pyFloorDiv, pyLt, Except.bind, h]
  rw [husd, hbtc]
  refine ⟨?_, ?_, ?_, ?_, ?_, ?_⟩
  · by_cases h : rate ≤ 0 <;> simp [h]
  · intro h; rw [if_neg (not_le.mpr h)]
  · by_cases h : rate ≤ 1 <;> simp [h]
  · intro h; rw [if_neg (not_le.mpr h)]
  · intro r; by_cases h : rate ≤ 0 <;> simp [h]
  · intro r; by_cases h : rate ≤ 1 <;> simp [h]

/-- Witness for claim C10: a USD offer at rate 5 with any elapsed time
fails with the comparison `TypeError`. -/
theorem claim_C10_witness :
    (0 : ℚ) < 5 ∧ BFClient_get_new_rate "USD" 5 123456 =
      Except.error "TypeError: unsupported comparison between timedelta and int" :=
  ⟨by norm_num, (claim_C10_bfclient_rate_never_changes 5 123456).2.1 (by norm_num)⟩

/-- Counterexample to claim C1 as stated: two offers of the same currency
that decay to the same rate, with cancelled amounts summing to 20 against
a minimum offer size of 100 — `adjust_offers` submits no offer at all
(the single aggregated bucket is reported as a skip), so "submits exactly
one new offer" fails without a minimum-amount proviso. -/
theorem claim_C1_counterexample :
    constNewRate 3 { id := 1, currency := "USD", rate := 5, submitted_at := 0, amount := 10 } =
      constNewRate 3 { id := 2, currency := "USD", rate := 4, submitted_at := 0, amount := 10 } ∧
    adjust_offers (constNewRate 3) Offer.amount
        [{ id := 1, currency := "USD", rate := 5, submitted_at := 0, amount := 10 },
         { id := 2, currency := "USD", rate := 4, submitted_at := 0, amount := 10 }] 2 100
      = [AdjustAction.skip 3 "USD" 20] :=
  ⟨rfl, by norm_num [adjust_offers, collectBuckets, addToBucket, constNewRate]⟩

/-- Claim C1 (amended): for a rebalancing pass over two offers whose
`get_new_rate` results are present and equal to `r`, *provided the two
cancel-reported amounts sum to strictly more than `minimum_amount`*,
`adjust_offers` submits exactly one new offer, at rate `r`, with amount
the sum of the two cancelled amounts. -/
theorem claim_C1_two_offer_aggregation (newRateOf : Offer → Option ℚ)
    (cancelAmountOf : Offer → ℚ) (o1 o2 : Offer) (r : ℚ) (lendPeriod : ℤ)
    (minimumAmount : ℚ) (h1 : newRateOf o1 = some r) (h2 : newRateOf o2 = some r)
    (hmin : minimumAmount < cancelAmountOf o1 + cancelAmountOf o2) :
    adjust_offers newRateOf cancelAmountOf [o1, o2] lendPeriod minimumAmount =
      [AdjustAction.newOffer o1.currency (cancelAmountOf o1 + cancelAmountOf o2) r lendPeriod] := by
  have hb : collectBuckets newRateOf cancelAmountOf [o1, o2] [] =
      [(r, cancelAmountOf o1 + cancelAmountOf o2)] := by
    simp [collectBuckets, h1, h2, addToBucket]
  simp [adjust_offers, hb, hmin]

/-- Witness for (amended) claim C1 at concrete offers: amounts 30 and 40
decaying to rate 3, minimum 50. -/
theorem claim_C1_witness :
    constNewRate 3 { id := 1, currency := "USD", rate := 5, submitted_at := 0, amount := 30 } = some 3 ∧
    constNewRate 3 { id := 2, currency := "USD", rate := 4, submitted_at := 0, amount := 40 } = some 3 ∧
    (50 : ℚ) < 30 + 40 ∧
    adjust_offers (constNewRate 3) Offer.amount
        [{ id := 1, currency := "USD", rate := 5, submitted_at := 0, amount := 30 },
         { id := 2, currency := "USD", rate := 4, submitted_at := 0, amount := 40 }] 2 50
      = [AdjustAction.newOffer "USD" ((30 : ℚ) + 40) 3 2] :=
  ⟨rfl, rfl, by norm_num,
    claim_C1_two_offer_aggregation (constNewRate 3) Offer.amount
      { id := 1, currency := "USD", rate := 5, submitted_at := 0, amount := 30 }
      { id := 2, currency := "USD", rate := 4, submitted_at := 0, amount := 40 }
      3 2 50 rfl rfl (by show (50 : ℚ) < 30 + 40; norm_num)⟩

/-- Claim C8: in a rebalancing pass, each aggregated rate bucket is
submitted as a new offer exactly when its amount strictly exceeds
`minimum_amount`, and otherwise appears in the output as an explicit skip
report (not an exception, not silently dropped). -/
theorem claim_C8_minimum_policy (newRateOf : Offer → Option ℚ)
    (cancelAmountOf : Offer → ℚ) (o : Offer) (rest : List Offer)
    (lendPeriod : ℤ) (minimumAmount : ℚ) (r a : ℚ)
    (hmem : (r, a) ∈ collectBuckets newRateOf cancelAmountOf (o :: rest) []) :
    (AdjustAction.newOffer o.currency a r lendPeriod ∈
        adjust_offers newRateOf cancelAmountOf (o :: rest) lendPeriod minimumAmount ↔
      minimumAmount < a) ∧
    (AdjustAction.skip r o.currency a ∈
        adjust_offers newRateOf cancelAmountOf (o :: rest) lendPeriod minimumAmount ↔
      a ≤ minimumAmount) := by
  have hao : adjust_offers newRateOf cancelAmountOf (o :: rest) lendPeriod minimumAmount =
      (collectBuckets newRateOf cancelAmountOf (o :: rest) []).map fun p =>
        if minimumAmount < p.2 then AdjustAction.newOffer o.currency p.2 p.1 lendPeriod
        else AdjustAction.skip p.1 o.currency p.2 := rfl
  rw [hao]
  constructor
  · constructor
    · intro hin
      rcases List.mem_map.mp hin with ⟨⟨r', a'⟩, _, heq⟩
      by_cases h : minimumAmount < a'
      · rw [if_pos h] at heq
        simp only [AdjustAction.newOffer.injEq] at heq
        rw [← heq.2.1]
        exact h
      · rw [if_neg h] at heq
        simp at heq
    · intro h
      exact List.mem_map.mpr ⟨(r, a), hmem, by rw [if_pos h]⟩
  · constructor
    · intro hin
      rcases List.mem_map.mp hin with ⟨⟨r', a'⟩, _, heq⟩
      by_cases h : minimumAmount < a'
      · rw [if_pos h] at heq
        simp at heq
      · rw [if_neg h] at heq
        simp only [AdjustAction.skip.injEq] at heq
        rw [← heq.2.2]
        exact not_lt.mp h
    · intro h
      exact List.mem_map.mpr ⟨(r, a), hmem, by rw [if_neg (not_lt.mpr h)]⟩

/-- Witness for claim C8: one USD offer of amount 5 decaying to rate 2
against minimum 10 — the bucket is skipped, not submitted. -/
theorem claim_C8_witness :
    ((2 : ℚ), (5 : ℚ)) ∈ collectBuckets (constNewRate 2) Offer.amount
        [{ id := 1, currency := "USD", rate := 5, submitted_at := 0, amount := 5 }] [] ∧
    (AdjustAction.newOffer "USD" 5 2 7 ∈ adjust_offers (constNewRate 2) Offer.amount
        [{ id := 1, currency := "USD", rate := 5, submitted_at := 0, amount := 5 }] 7 10 ↔
      (10 : ℚ) < 5) ∧
    (AdjustAction.skip 2 "USD" 5 ∈ adjust_offers (constNewRate 2) Offer.amount
        [{ id := 1, currency := "USD", rate := 5, submitted_at := 0, amount := 5 }] 7 10 ↔
      (5 : ℚ) ≤ 10) :=
  ⟨by decide,
    (claim_C8_minimum_policy (constNewRate 2) Offer.amount
      { id := 1, currency := "USD", rate := 5, submitted_at := 0, amount := 5 } [] 7 10 2 5
      (by decide)).1,
    (claim_C8_minimum_policy (constNewRate 2) Offer.amount
      { id := 1, currency := "USD", rate := 5, submitted_at := 0, amount := 5 } [] 7 10 2 5
      (by decide)).2⟩

theorem retryLoopActions_no_acquire (attempts : List AttemptResult) :
    ∀ k : ℕ, (retryLoopActions attempts k).countP isAcquire = 0 := by
  induction attempts with
  | nil => intro k; rfl
  | cons a rest ih =>
    intro k
    by_cases h : requestRetried a = true
    · simp [retryLoopActions, h, List.countP_cons, isAcquire, ih (k + 1)]
    · simp [retryLoopActions, h]

/-- Claim C5 (code bug): the claim — and the code's own retry message
and comment (cascadebot.py 302, 309-312) — say an HTTP 500 is retried
after a `2 ** retry_count` backoff sleep, like a connection failure.
In fact a `requests.Response` is falsy for status 500, so the guard
`if request and request.status_code == 500` never resets `request`: no
response status is ever retried, the retry loop ends at the first
response, and a 500 is then fatal via `raise_for_status()` with no
sleep — the claimed three-500s-then-200 backoff run cannot happen in
this program.  Only connection failures back off, and only the
rate-limiter half of the claim holds: exactly one acquisition per
logical request, before the loop.  At the failing input (a 500
response, then a 200 the loop never reaches) the trace is the bare
acquisition, zero sleep, and an HTTP error. -/
theorem claim_C5_500_not_retried :
    (∀ s : ℕ, requestRetried (AttemptResult.response s) = false) ∧
    requestRetried AttemptResult.connectionError = true ∧
    requestActions [AttemptResult.response 500, AttemptResult.response 200] =
      [ClientAction.rateLimiterAcquire] ∧
    totalSleep (requestActions [AttemptResult.response 500, AttemptResult.response 200]) = 0 ∧
    requestResult [AttemptResult.response 500, AttemptResult.response 200] =
      RequestResult.httpError 500 ∧
    requestActions [AttemptResult.connectionError, AttemptResult.connectionError,
        AttemptResult.response 200] =
      [ClientAction.rateLimiterAcquire, ClientAction.sleepSeconds (2 ^ 0),
        ClientAction.sleepSeconds (2 ^ 1)] ∧
    (∀ attempts : List AttemptResult, (requestActions attempts).countP isAcquire = 1) := by
  refine ⟨?_, rfl, by decide, by decide, by decide, by decide, ?_⟩
  · intro s
    by_cases h : s = 500
    · subst h
      decide
    · simp [requestRetried, h]
  · intro attempts
    simp [requestActions, List.countP_cons, retryLoopActions_no_acquire, isAcquire]

theorem parseDecimal_zero_zero : parseDecimal "0.00" = 0 := by
  rw [show parseDecimal "0.00" = ((0 : ℕ) : ℚ) + ((0 : ℕ) : ℚ) / (10 : ℚ) ^ (2 : ℕ) from rfl]
  norm_num

theorem parseDecimal_five_zero : parseDecimal "5.0" = 5 := by
  rw [show parseDecimal "5.0" = ((5 : ℕ) : ℚ) + ((0 : ℕ) : ℚ) / (10 : ℚ) ^ (1 : ℕ) from rfl]
  norm_num

theorem parseDecimal_three_zero : parseDecimal "3.0" = 3 := by
  rw [show parseDecimal "3.0" = ((3 : ℕ) : ℚ) + ((0 : ℕ) : ℚ) / (10 : ℚ) ^ (1 : ℕ) from rfl]
  norm_num

theorem parseDecimal_nine_zero : parseDecimal "9.0" = 9 := by
  rw [show parseDecimal "9.0" = ((9 : ℕ) : ℚ) + ((0 : ℕ) : ℚ) / (10 : ℚ) ^ (1 : ℕ) from rfl]
  norm_num

/-- Counterexample to claim C7 as stated: on a response holding a USD
lend entry with raw rate string `"0.00"` (numerically zero) and an LTC
lend entry with nonzero rate, `get_offers` returns the zero-rate entry
(the code compares the raw string against `"0.0"` only) and silently
drops the LTC entry (id 2 appears in neither returned list), so the
returned lists are not "exactly the entries with `direction == "lend"`
and `rate != 0`" partitioned by currency. -/
theorem claim_C7_counterexample :
    get_offers [⟨⟨1, "USD", "0.00", 0, "100"⟩, "lend"⟩, ⟨⟨2, "LTC", "5.0", 0, "100"⟩, "lend"⟩] =
      ([Offer.ofDict ⟨1, "USD", "0.00", 0, "100"⟩], []) ∧
    parseDecimal "0.00" = 0 ∧
    spec_list_offers
        [⟨⟨1, "USD", "0.00", 0, "100"⟩, "lend"⟩, ⟨⟨2, "LTC", "5.0", 0, "100"⟩, "lend"⟩] =
      ([], []) ∧
    parseDecimal "5.0" ≠ 0 ∧
    ¬ ((2 : ℤ) ∈
        ((get_offers [⟨⟨1, "USD", "0.00", 0, "100"⟩, "lend"⟩,
            ⟨⟨2, "LTC", "5.0", 0, "100"⟩, "lend"⟩]).1 ++
         (get_offers [⟨⟨1, "USD", "0.00", 0, "100"⟩, "lend"⟩,
            ⟨⟨2, "LTC", "5.0", 0, "100"⟩, "lend"⟩]).2).map Offer.id) :=
  ⟨rfl, parseDecimal_zero_zero,
    by simp [spec_list_offers, parseDecimal_zero_zero],
    by rw [parseDecimal_five_zero]; norm_num,
    by decide⟩

/-- Claim C7 (amended): `get_offers` returns exactly the raw entries
with `direction == "lend"`, raw rate string different from `"0.0"`, and
currency `"USD"` or `"BTC"`, partitioned by currency into two sequences
that preserve the exchange response order (a floating-rate entry whose
rate is rendered other than exactly `"0.0"` is kept, and entries of any
other currency are dropped). -/
theorem claim_C7_get_offers_filter (es : List OfferDict.Entry) :
    get_offers es =
      ((es.filter fun e =>
          e.direction == "lend" && e.dict.rate != "0.0" && e.dict.currency == "USD").map
          fun e => Offer.ofDict e.dict,
       (es.filter fun e =>
          e.direction == "lend" && e.dict.rate != "0.0" && e.dict.currency == "BTC").map
          fun e => Offer.ofDict e.dict) := by
  induction es with
  | nil => rfl
  | cons e rest ih =>
    simp only [get_offers, ih, List.filter_cons]
    by_cases hl : e.direction == "lend" <;>
      by_cases hr : e.dict.rate != "0.0" <;>
        by_cases hu : e.dict.currency == "USD" <;>
          by_cases hb : e.dict.currency == "BTC" <;>
            simp_all [Offer.ofDict]

theorem balances_foldl (rows : List BalanceEntry) : ∀ u b : ℚ,
    rows.foldl
      (fun acc e =>
        if e.type == "deposit" then
          if e.currency == "usd" then (parseDecimal e.available, acc.2)
          else if e.currency == "btc" then (acc.1, parseDecimal e.available)
          else acc
        else acc) (u, b) =
    ((findLastDeposit "usd" rows).elim u fun e => parseDecimal e.available,
     (findLastDeposit "btc" rows).elim b fun e => parseDecimal e.available) := by
  induction rows with
  | nil => intro u b; rfl
  | cons e rest ih =>
    intro u b
    rw [List.foldl_cons]
    rcases hfu : findLastDeposit "usd" rest with _ | eu <;>
      rcases hfb : findLastDeposit "btc" rest with _ | eb <;>
        by_cases hd : e.type == "deposit" <;>
          by_cases hu : e.currency == "usd" <;>
            by_cases hb : e.currency == "btc" <;>
              simp_all [findLastDeposit, ih]

theorem bfclient_balances_foldl (rows : List BalanceEntry) : ∀ u b : ℚ,
    rows.foldl
      (fun acc e =>
        if e.type == "deposit" && e.currency == "usd" then
          (parseDecimal e.available, parseDecimal e.amount)
        else acc) (u, b) =
    ((findLastDeposit "usd" rows).elim u fun e => parseDecimal e.available,
     (findLastDeposit "usd" rows).elim b fun e => parseDecimal e.amount) := by
  induction rows with
  | nil => intro u b; rfl
  | cons e rest ih =>
    intro u b
    rw [List.foldl_cons]
    by_cases hp : (e.type == "deposit" && e.currency == "usd") = true
    · rw [if_pos hp, ih]
      rcases hfu : findLastDeposit "usd" rest with _ | eu <;> simp [findLastDeposit, hfu, hp]
    · rw [if_neg hp, ih]
      rcases hfu : findLastDeposit "usd" rest with _ | eu <;> simp [findLastDeposit, hfu, hp]

/-- Counterexample to claim C9 as stated: on a balances response with a
USD deposit row (available 3, amount 9) and a BTC deposit row
(available 5, amount 7), BFClient.py's `get_available_balances` returns
`(3, 9)` — the USD row's available and *total amount* — although the
BTC deposit wallet's available balance is 5; the cascadebot.py version
returns `(3, 5)`. -/
theorem claim_C9_counterexample :
    BFClient_get_available_balances
        [⟨"deposit", "usd", "3.0", "9.0"⟩, ⟨"deposit", "btc", "5.0", "7.0"⟩] = (3, 9) ∧
    get_available_balances
        [⟨"deposit", "usd", "3.0", "9.0"⟩, ⟨"deposit", "btc", "5.0", "7.0"⟩] = (3, 5) ∧
    lastDepositField "btc" BalanceEntry.available
        [⟨"deposit", "usd", "3.0", "9.0"⟩, ⟨"deposit", "btc", "5.0", "7.0"⟩] = 5 ∧
    (9 : ℚ) ≠ 5 := by
  refine ⟨?_, ?_, ?_, by norm_num⟩
  · rw [show BFClient_get_available_balances
        [⟨"deposit", "usd", "3.0", "9.0"⟩, ⟨"deposit", "btc", "5.0", "7.0"⟩] =
        (parseDecimal "3.0", parseDecimal "9.0") from rfl,
      parseDecimal_three_zero, parseDecimal_nine_zero]
  · rw [show get_available_balances
        [⟨"deposit", "usd", "3.0", "9.0"⟩, ⟨"deposit", "btc", "5.0", "7.0"⟩] =
        (parseDecimal "3.0", parseDecimal "5.0") from rfl,
      parseDecimal_three_zero, parseDecimal_five_zero]
  · rw [show lastDepositField "btc" BalanceEntry.available
        [⟨"deposit", "usd", "3.0", "9.0"⟩, ⟨"deposit", "btc", "5.0", "7.0"⟩] =
        parseDecimal "5.0" from rfl, parseDecimal_five_zero]

/-- Claim C9 (amended): cascadebot.py's `get_available_balances` returns,
for each of USD and BTC, the parsed available balance of that currency's
(last) deposit wallet row, `0` when absent; BFClient.py's version instead
returns the USD deposit row's available balance and its total amount, and
reports nothing about BTC. -/
theorem claim_C9_available_balances (rows : List BalanceEntry) :
    get_available_balances rows =
      (lastDepositField "usd" BalanceEntry.available rows,
       lastDepositField "btc" BalanceEntry.available rows) ∧
    BFClient_get_available_balances rows =
      (lastDepositField "usd" BalanceEntry.available rows,
       lastDepositField "usd" BalanceEntry.amount rows) :=
  ⟨balances_foldl rows 0 0, bfclient_balances_foldl rows 0 0⟩

theorem expSeq_closed (minRate m rate : ℚ) :
    ∀ n : ℕ, expSeq minRate m rate n = (rate - minRate) * m ^ n + minRate
  | 0 => by simp [expSeq]
  | n + 1 => by
    rw [expSeq, Function.iterate_succ_apply',
      show (decayStep minRate 0 m)^[n] rate = expSeq minRate m rate n from rfl,
      expSeq_closed minRate m rate n, decayStep]
    ring

/-- Counterexample to claim C3 as stated: the claim only requires
`decayMultiplier < 1`, but at `decayMultiplier = -2` (with
`rateDecrement = 0`, `minRate = 0`, starting rate 2) the per-interval
results of `get_new_rate` are 0 after one interval and 8 after two —
the sequence leaves the floor and increases, so it neither decreases
strictly nor converges toward `minRate`. -/
theorem claim_C3_counterexample :
    get_new_rate 0 0 (-2) 2 1 1 = some 0 ∧
    get_new_rate 0 0 (-2) 2 2 1 = some 8 ∧
    ((-2 : ℚ) < 1) ∧ ((0 : ℚ) < 2) ∧ ((0 : ℚ) < 8) := by
  have hseq1 : expSeq 0 (-2) 2 1 = -4 := by rw [expSeq_closed]; norm_num
  have hseq2 : expSeq 0 (-2) 2 2 = 8 := by rw [expSeq_closed]; norm_num
  refine ⟨?_, ?_, by norm_num, by norm_num, by norm_num⟩
  · simp only [get_new_rate, show Int.fdiv 1 1 = 1 from rfl]
    rw [if_neg (by norm_num : ¬ (2 : ℚ) ≤ 0), if_neg (by norm_num : ¬ (1 : ℤ) < 1),
      show ((1 : ℤ).toNat) = 1 from rfl,
      show (decayStep 0 0 (-2))^[1] (2 : ℚ) = expSeq 0 (-2) 2 1 from rfl, hseq1,
      max_eq_right (by norm_num : (-4 : ℚ) ≤ 0)]
  · simp only [get_new_rate, show Int.fdiv 2 1 = 2 from rfl]
    rw [if_neg (by norm_num : ¬ (2 : ℚ) ≤ 0), if_neg (by norm_num : ¬ (2 : ℤ) < 1),
      show ((2 : ℤ).toNat) = 2 from rfl,
      show (decayStep 0 0 (-2))^[2] (2 : ℚ) = expSeq 0 (-2) 2 2 from rfl, hseq2,
      max_eq_left (by norm_num : (0 : ℚ) ≤ 8)]

/-- Claim C3 (amended): for an offer with rate strictly above `minRate`,
`rateDecrement = 0` and `0 < decayMultiplier < 1`, the per-interval rate
sequence stays strictly above `minRate`, is strictly decreasing, is what
`get_new_rate` returns (the clamp never binds), and converges to
`minRate`: for every positive `ε` it is eventually within `ε` of the
floor. -/
theorem claim_C3_exponential_decay (minRate m rate : ℚ)
    (hrate : minRate < rate) (hm0 : 0 < m) (hm1 : m < 1) :
    (∀ n : ℕ, minRate < expSeq minRate m rate n) ∧
    (∀ n : ℕ, expSeq minRate m rate (n + 1) < expSeq minRate m rate n) ∧
    (∀ te di n : ℤ, Int.fdiv te di = n → 1 ≤ n →
        get_new_rate minRate 0 m rate te di = some (expSeq minRate m rate n.toNat)) ∧
    (∀ ε : ℚ, 0 < ε → ∃ N : ℕ, ∀ n : ℕ, N ≤ n → expSeq minRate m rate n - minRate < ε) := by
  have hpos : ∀ n : ℕ, 0 < (rate - minRate) * m ^ n := fun n =>
    mul_pos (sub_pos.mpr hrate) (pow_pos hm0 n)
  have hlow : ∀ n, minRate < expSeq minRate m rate n := by
    intro n
    rw [expSeq_closed]
    linarith [hpos n]
  have hdec : ∀ n, expSeq minRate m rate (n + 1) < expSeq minRate m rate n := by
    intro n
    rw [expSeq_closed, expSeq_closed]
    have h1 : m ^ (n + 1) < m ^ n := by
      rw [pow_succ]
      nth_rewrite 2 [← mul_one (m ^ n)]
      exact mul_lt_mul_of_pos_left hm1 (pow_pos hm0 n)
    have h2 : (rate - minRate) * m ^ (n + 1) < (rate - minRate) * m ^ n :=
      mul_lt_mul_of_pos_left h1 (sub_pos.mpr hrate)
    linarith
  refine ⟨hlow, hdec, ?_, ?_⟩
  · intro te di n hn h1
    simp only [get_new_rate, hn]
    rw [if_neg (not_le.mpr hrate), if_neg (by omega : ¬ n < 1)]
    congr 1
    exact max_eq_left (le_of_lt (hlow n.toNat))
  · intro ε hε
    rcases exists_pow_lt_of_lt_one (div_pos hε (sub_pos.mpr hrate)) hm1 with ⟨N, hN⟩
    refine ⟨N, fun n hn => ?_⟩
    have hstep : expSeq minRate m rate n ≤ expSeq minRate m rate N := by
      induction n, hn using Nat.le_induction with
      | base => exact le_refl _
      | succ n hn ih => exact le_trans (le_of_lt (hdec n)) ih
    have hcancel : (rate - minRate) * (ε / (rate - minRate)) = ε := by
      rw [mul_comm]
      exact div_mul_cancel₀ ε (ne_of_gt (sub_pos.mpr hrate))
    have hN2 : expSeq minRate m rate N - minRate < ε := by
      rw [expSeq_closed]
      have h2 : (rate - minRate) * m ^ N < (rate - minRate) * (ε / (rate - minRate)) :=
        mul_lt_mul_of_pos_left hN (sub_pos.mpr hrate)
      rw [hcancel] at h2
      linarith
    linarith

/-- Witness for (amended) claim C3: floor 0, multiplier 1/2, rate 1, one
elapsed interval. -/
theorem claim_C3_witness :
    (0 : ℚ) < 1 ∧ (0 : ℚ) < 1 / 2 ∧ (1 / 2 : ℚ) < 1 ∧ Int.fdiv 1 1 = 1 ∧ (1 : ℤ) ≤ 1 ∧
    get_new_rate 0 0 (1 / 2) 1 1 1 = some (expSeq 0 (1 / 2) 1 (Int.toNat 1)) :=
  ⟨by norm_num, by norm_num, by norm_num, by decide, by decide,
    (claim_C3_exponential_decay 0 (1 / 2) 1 (by norm_num) (by norm_num)
        (by norm_num)).2.2.1 1 1 1 (by decide) (by decide)⟩

theorem dropWhile_as_drop {α : Type} (p : α → Bool) (l : List α) :
    ∃ m, m ≤ l.length ∧ l.dropWhile p = l.drop m ∧ ∀ x ∈ l.take m, p x = true := by
  induction l with
  | nil => exact ⟨0, by simp, rfl, by simp⟩
  | cons a l ih =>
    by_cases h : p a = true
    · rcases ih with ⟨m, hm, hd, ht⟩
      refine ⟨m + 1, by simpa using hm, ?_, ?_⟩
      · rw [List.dropWhile_cons, if_pos h, List.drop_succ_cons]
        exact hd
      · intro x hx
        rw [List.take_succ_cons] at hx
        rcases List.mem_cons.mp hx with hx | hx
        · rw [hx]; exact h
        · exact ht x hx
    · refine ⟨0, by simp, ?_, by simp⟩
      rw [List.dropWhile_cons, if_neg h, List.drop_zero]

theorem length_admittedTimes (es : List AcquireEvent) (n : ℕ) (hn : n ≤ es.length) :
    (admittedTimes es n).length = n := by
  unfold admittedTimes
  rw [List.length_map, List.length_take]
  omega

theorem dequeAfter_spec (es : List AcquireEvent) :
    ∀ n, n ≤ es.length →
      ∃ m, m ≤ n ∧ dequeAfter es n = (admittedTimes es n).drop m ∧
        ∀ x ∈ (admittedTimes es n).take m, ∃ k : Fin es.length, (k : ℕ) < n ∧
          x < (es.get k).checkTime - rate_limit_interval := by
  intro n
  induction n with
  | zero => exact fun _ => ⟨0, le_refl 0, rfl, by simp [admittedTimes]⟩
  | succ n ih =>
    intro hn1
    have hn : n < es.length := hn1
    obtain ⟨m, hm, hdq, htake⟩ := ih (le_of_lt hn)
    have hstep : dequeAfter es (n + 1) =
        evictOld (es.get ⟨n, hn⟩).checkTime (dequeAfter es n) ++ [(es.get ⟨n, hn⟩).appendTime] := by
      simp only [dequeAfter]
      rw [dif_pos hn]
      rfl
    have hadm : admittedTimes es (n + 1) =
        admittedTimes es n ++ [(es.get ⟨n, hn⟩).appendTime] := by
      unfold admittedTimes
      rw [List.take_succ, List.getElem?_eq_getElem hn, List.map_append]
      rfl
    obtain ⟨d, hdlen, hdrop, hdtake⟩ := dropWhile_as_drop
      (fun t => decide (t < (es.get ⟨n, hn⟩).checkTime - rate_limit_interval))
      ((admittedTimes es n).drop m)
    have hlenA : (admittedTimes es n).length = n := length_admittedTimes es n (le_of_lt hn)
    rw [List.length_drop, hlenA] at hdlen
    refine ⟨m + d, by omega, ?_, ?_⟩
    · rw [hstep, hdq]
      unfold evictOld
      rw [hdrop, List.drop_drop, hadm,
        List.drop_append_of_le_length (by rw [hlenA]; omega : m + d ≤ (admittedTimes es n).length)]
    · intro x hx
      rw [hadm,
        List.take_append_of_le_length (by rw [hlenA]; omega : m + d ≤ (admittedTimes es n).length),
        List.take_add] at hx
      rcases List.mem_append.mp hx with hx | hx
      · rcases htake x hx with ⟨k, hk, hklt⟩
        exact ⟨k, by omega, hklt⟩
      · have hp := hdtake x hx
        exact ⟨⟨n, hn⟩, by simp, of_decide_eq_true hp⟩

/-- Claim C4: with the window constants of `BitfinexAPI` (60 requests per
70 seconds), any run of `_rate_limiter` acquisitions on a monotone clock
in which every recorded timestamp passed the window check keeps every 61
consecutive admitted timestamps more than 70 seconds apart: no trailing
70-second window ever holds more than 60 admitted timestamps, and a 61st
acquisition's timestamp is recorded only once the oldest of the previous
60 has fallen out of the window (until then the loop sleeps and
re-checks, which is exactly the `GuardHolds` requirement on the final
check). -/
theorem claim_C4_rate_limiter_window (es : List AcquireEvent)
    (hc : Chronological es) (hg : GuardHolds es) :
    ∀ i j : ℕ, ∀ hi : i < es.length, ∀ hj : j < es.length,
      i + max_requests_per_interval ≤ j →
      (es.get ⟨i, hi⟩).appendTime + rate_limit_interval < (es.get ⟨j, hj⟩).appendTime := by
  intro i j hi hj hij
  obtain ⟨m, hm, hdq, htake⟩ := dequeAfter_spec es j (le_of_lt hj)
  have hguard := hg ⟨j, hj⟩
  obtain ⟨d, hdlen, hdrop, hdtake⟩ := dropWhile_as_drop
    (fun t => decide (t < (es.get ⟨j, hj⟩).checkTime - rate_limit_interval))
    ((admittedTimes es j).drop m)
  have hlenA : (admittedTimes es j).length = j := length_admittedTimes es j (le_of_lt hj)
  rw [hdq] at hguard
  unfold evictOld at hguard
  rw [hdrop, List.length_drop, List.length_drop, hlenA] at hguard
  simp only [max_requests_per_interval] at hguard hij
  have him : i < m + d := by omega
  have hilt2 : i < ((admittedTimes es j).take (m + d)).length := by
    rw [List.length_take, hlenA]
    omega
  have hgeteq : ((admittedTimes es j).take (m + d)).get ⟨i, hilt2⟩ =
      (es.get ⟨i, hi⟩).appendTime := by
    simp [List.get_eq_getElem, List.getElem_take, admittedTimes, List.getElem_map]
  have hmem : (es.get ⟨i, hi⟩).appendTime ∈ (admittedTimes es j).take (m + d) := by
    rw [← hgeteq]
    exact List.get_mem _ _ _
  rw [List.take_add] at hmem
  have hj1 := hc.1 ⟨j, hj⟩
  rcases List.mem_append.mp hmem with hx | hx
  · rcases htake _ hx with ⟨k, hkj, hklt⟩
    have h1 := hc.1 k
    have h2 := hc.2 k ⟨j, hj⟩ hkj
    linarith
  · have hxlt := of_decide_eq_true (hdtake _ hx)
    linarith

/-- Witness for claim C4: the 61-event run `witnessEvents` (one
acquisition every two seconds) satisfies the clock and window-check
hypotheses, and its 61st admitted timestamp indeed lies more than 70
seconds after its first. -/
theorem claim_C4_witness :
    Chronological witnessEvents ∧ GuardHolds witnessEvents ∧
    0 + max_requests_per_interval ≤ 60 ∧
    (witnessEvents.get ⟨0, by decide⟩).appendTime + rate_limit_interval <
      (witnessEvents.get ⟨60, by decide⟩).appendTime :=
  ⟨by decide, by decide, by decide,
    claim_C4_rate_limiter_window witnessEvents (by decide) (by decide) 0 60
      (by decide) (by decide) (by decide)⟩
